import Mathlib

/-!
Verification of the drone_trajectories scripts.

Shallow embedding over exact rationals of:
  * the windowed segmentation of `process_single_trajectory.py` /
    `process_multiple_trajectories.py` (`process_trajectory`),
  * the finite-difference velocity derivation of `compute_velocity.py`
    (`compute_velocity`) and `data_distribution.py` (backward variant),
  * the row-cleaning pipeline of `compute_velocity.py` (`process_files`),
  * the resampling of `resample_trajectory.py` (`resample_trajectory`) and
    `compute_velocity.py` (`resample_data`),
  * the statistics / whitening of `compute_stats.py` (`compute_stats`,
    `process_file`),
  * the rotation construction of `generate_random_trajectories.py`
    (`rotation_matrix_from_vectors`).

Machine floats are modelled by exact rationals; a floating-point NaN produced
by a malformed field is modelled by `Option.none`; a Python exception raised
by a library call is modelled by `Except.error` carrying the message of the
exception that the library raises at that call site.
-/

/-- One data row of a trajectory file: columns `timestamp,tx,ty,tz`
(`pd.read_csv` of the files written by `save_to_txt`). -/
structure PosRow where
  timestamp : ℚ
  tx : ℚ
  ty : ℚ
  tz : ℚ
deriving DecidableEq

/-- The zero row, used only as the out-of-range default of `List.getD`. -/
def dRow : PosRow := ⟨0, 0, 0, 0⟩

/-- The `[['tx','ty','tz']]` projection used when a segment is sliced out of
the dataframe. -/
def posTriple (r : PosRow) : ℚ × ℚ × ℚ := (r.tx, r.ty, r.tz)

/-- Number of iterations of `for i in range(0, len(df) - inp_seg_len -
out_seg_len + 1)`: the Python value `len(df) - inp - out + 1` is computed in
ℤ and `range` of a non-positive bound is empty, so the iteration count is
`max 0 (T - inp - out + 1) = (T + 1) - (inp + out)` in truncated ℕ
subtraction. -/
def segIndexCount (T inp out : ℕ) : ℕ := T + 1 - (inp + out)

/-- The list of `(input_segment, output_segment)` pairs accumulated by the
loop of `process_trajectory`: for each window start `i`,
`df.iloc[i:i+inp][['tx','ty','tz']]` paired with
`df.iloc[i+inp:i+inp+out][['tx','ty','tz']]`. -/
def makeSegments (rows : List PosRow) (inp out : ℕ) :
    List (List (ℚ × ℚ × ℚ) × List (ℚ × ℚ × ℚ)) :=
  (List.range (segIndexCount rows.length inp out)).map fun i =>
    (((rows.drop i).take inp).map posTriple,
     ((rows.drop (i + inp)).take out).map posTriple)

/-- `process_trajectory` of `process_single_trajectory.py` (and the identical
loop of `process_multiple_trajectories.py`), position mode.

Error modelling, in the order the Python code reaches the faults:
  * if the loop runs zero times, `np.array([]).transpose(1, 2, 0)` raises
    `ValueError: axes don't match array` (a 1-d empty array has no axes 1, 2);
  * otherwise the first iteration calls `scipy.interpolate.splrep` with
    `k = 3` on the input window and then on the output window, and `splrep`
    raises `TypeError: m > k must hold` when the window has fewer than 4
    samples.
On success it returns the segment pairs (the spline knots and coefficients
also returned by the source are not modelled). -/
def process_trajectory (rows : List PosRow) (inp out : ℕ) :
    Except String (List (List (ℚ × ℚ × ℚ) × List (ℚ × ℚ × ℚ))) :=
  if segIndexCount rows.length inp out = 0 then
    Except.error "ValueError: axes dont match array"
  else if inp ≤ 3 then
    Except.error "TypeError: m > k must hold"
  else if out ≤ 3 then
    Except.error "TypeError: m > k must hold"
  else
    Except.ok (makeSegments rows inp out)

/-- The batch loop of `process_multiple_trajectories.py`: every file is fed
to `process_trajectory` (an exception aborts the whole batch, there is no
try/except around the call), then the per-file segment lists are concatenated
along the segment axis; `np.concatenate` of an empty list raises. -/
def process_batch (files : List (List PosRow)) (inp out : ℕ) :
    Except String (List (List (ℚ × ℚ × ℚ) × List (ℚ × ℚ × ℚ))) :=
  match files.mapM (fun f => process_trajectory f inp out) with
  | Except.error e => Except.error e
  | Except.ok segLists =>
      if segLists.isEmpty then
        Except.error "ValueError: need at least one array to concatenate"
      else
        Except.ok segLists.flatten

/-- A simple concrete trajectory with `n` rows, used as test data. -/
def mkLinRows (n : ℕ) : List PosRow :=
  (List.range n).map fun k : ℕ => PosRow.mk (k : ℚ) (k : ℚ) 0 0

theorem mkLinRows_length (n : ℕ) : (mkLinRows n).length = n := by
  rw [mkLinRows, List.length_map, List.length_range]

theorem makeSegments_length (rows : List PosRow) (inp out : ℕ) :
    (makeSegments rows inp out).length = segIndexCount rows.length inp out := by
  rw [makeSegments, List.length_map, List.length_range]

theorem makeSegments_getD (rows : List PosRow) (inp out k : ℕ)
    (hk : k < (makeSegments rows inp out).length) :
    (makeSegments rows inp out).getD k ([], []) =
      (((rows.drop k).take inp).map posTriple,
       ((rows.drop (k + inp)).take out).map posTriple) := by
  rw [List.getD_eq_getElem _ _ hk]
  rw [makeSegments_length] at hk
  simp only [makeSegments, List.getElem_map, List.getElem_range]

theorem slice_getD (rows : List PosRow) (a len j : ℕ) (hj : j < len)
    (hbound : a + len ≤ rows.length) :
    (((rows.drop a).take len).map posTriple).getD j (0, 0, 0) =
      posTriple (rows.getD (a + j) dRow) := by
  have h1 : j < (((rows.drop a).take len).map posTriple).length := by
    simp only [List.length_map, List.length_take, List.length_drop]
    omega
  have h2 : a + j < rows.length := by omega
  rw [List.getD_eq_getElem _ _ h1, List.getD_eq_getElem _ _ h2, List.getElem_map,
    List.getElem_take, List.getElem_drop]

/-- Claim C2: the code crashes instead of yielding zero segments. With a
3-row trajectory and `inp_seg_len = out_seg_len = 2` (so `T < L_in + L_out`)
the loop body never runs and `np.array([]).transpose(1, 2, 0)` raises
`ValueError`; in the batch tool the exception propagates (there is no
try/except), so the remaining files are not processed. -/
theorem segmentation_short_trajectory_raises :
    process_trajectory (mkLinRows 3) 2 2 =
      Except.error "ValueError: axes dont match array" ∧
    process_batch [mkLinRows 8, mkLinRows 3] 4 4 =
      Except.error "ValueError: axes dont match array" := by
  exact ⟨rfl, rfl⟩

/-- Claim C3, counterexample: a 4-row trajectory with `L_in = L_out = 2`
satisfies `T ≥ L_in + L_out`, so the claim promises exactly `4 - 2 - 2 + 1 =
1` segment pair, but the code raises: `splrep` with `k = 3` rejects the
2-sample window (`m > k must hold`). -/
theorem segmentation_count_cex :
    2 + 2 ≤ (mkLinRows 4).length ∧
    process_trajectory (mkLinRows 4) 2 2 =
      Except.error "TypeError: m > k must hold" := by
  exact ⟨by decide, rfl⟩

/-- Claim C3, amended: for every trajectory of length `T ≥ L_in + L_out` with
window lengths `L_in, L_out ≥ 4` (the cubic-spline fit inside the loop needs
at least 4 samples per window), stride-1 segmentation succeeds and produces
exactly `T - L_in - L_out + 1` paired windows; pair `k` is the contiguous
slice of rows `k, ..., k+L_in-1` paired with the immediately following rows
`k+L_in, ..., k+L_in+L_out-1`. -/
theorem segmentation_count_amended (rows : List PosRow) (inp out : ℕ)
    (hinp : 4 ≤ inp) (hout : 4 ≤ out) (hT : inp + out ≤ rows.length) :
    process_trajectory rows inp out = Except.ok (makeSegments rows inp out) ∧
    (makeSegments rows inp out).length = rows.length - inp - out + 1 ∧
    (∀ k, k < (makeSegments rows inp out).length →
      ((makeSegments rows inp out).getD k ([], [])).1.length = inp ∧
      ((makeSegments rows inp out).getD k ([], [])).2.length = out) ∧
    (∀ k j, k < (makeSegments rows inp out).length → j < inp →
      ((makeSegments rows inp out).getD k ([], [])).1.getD j (0, 0, 0) =
        posTriple (rows.getD (k + j) dRow)) ∧
    (∀ k j, k < (makeSegments rows inp out).length → j < out →
      ((makeSegments rows inp out).getD k ([], [])).2.getD j (0, 0, 0) =
        posTriple (rows.getD (k + inp + j) dRow)) := by
  have hcount : segIndexCount rows.length inp out = rows.length - inp - out + 1 := by
    unfold segIndexCount; omega
  refine ⟨?_, ?_, ?_, ?_, ?_⟩
  · unfold process_trajectory
    rw [if_neg (by omega), if_neg (by omega), if_neg (by omega)]
  · rw [makeSegments_length, hcount]
  · intro k hk
    have hk' : k < segIndexCount rows.length inp out := by
      rwa [makeSegments_length] at hk
    rw [makeSegments_getD rows inp out k hk]
    constructor <;>
      simp only [List.length_map, List.length_take, List.length_drop] <;>
      (unfold segIndexCount at hk'; omega)
  · intro k j hk hj
    have hk' : k < segIndexCount rows.length inp out := by
      rwa [makeSegments_length] at hk
    unfold segIndexCount at hk'
    rw [makeSegments_getD rows inp out k hk]
    exact slice_getD rows k inp j hj (by omega)
  · intro k j hk hj
    have hk' : k < segIndexCount rows.length inp out := by
      rwa [makeSegments_length] at hk
    unfold segIndexCount at hk'
    rw [makeSegments_getD rows inp out k hk]
    exact slice_getD rows (k + inp) out j hj (by omega)

/-- Claim C3, witness: a 100-sample trajectory with `L_in = 10`, `L_out = 5`
yields exactly 86 segment pairs and no error. -/
theorem segmentation_count_witness :
    (4 ≤ 10 ∧ 4 ≤ 5 ∧ 10 + 5 ≤ (mkLinRows 100).length) ∧
    process_trajectory (mkLinRows 100) 10 5 =
      Except.ok (makeSegments (mkLinRows 100) 10 5) ∧
    (makeSegments (mkLinRows 100) 10 5).length = 86 := by
  have h := segmentation_count_amended (mkLinRows 100) 10 5 (by omega) (by omega)
    (by rw [mkLinRows_length]; omega)
  refine ⟨⟨by omega, by omega, by rw [mkLinRows_length]; omega⟩, h.1, ?_⟩
  rw [h.2.1, mkLinRows_length]

/-- Output row of the velocity scripts: the four original columns plus the
three derived velocity columns `vx, vy, vz`. -/
structure VelRow where
  timestamp : ℚ
  tx : ℚ
  ty : ℚ
  tz : ℚ
  vx : ℚ
  vy : ℚ
  vz : ℚ
deriving DecidableEq

/-- The zero velocity row, used only as the `List.getD` default. -/
def dVRow : VelRow := ⟨0, 0, 0, 0, 0, 0, 0⟩

/-- The row that `compute_velocity` (compute_velocity.py) builds from
consecutive rows `r` (kept) and `r1` (its successor): original columns of
`r`, velocities `(pos(r1) - pos(r)) / (t(r1) - t(r))`. -/
def mkVel (r r1 : PosRow) : VelRow :=
  ⟨r.timestamp, r.tx, r.ty, r.tz,
   (r1.tx - r.tx) / (r1.timestamp - r.timestamp),
   (r1.ty - r.ty) / (r1.timestamp - r.timestamp),
   (r1.tz - r.tz) / (r1.timestamp - r.timestamp)⟩

/-- `compute_velocity` of compute_velocity.py (lines 45-58): forward
differences (`diff().shift(-1)`), then `df.iloc[:-1]` drops the final row,
whose shifted difference is NaN.  Output row `i` keeps the original columns
of input row `i`. -/
def compute_velocity : List PosRow → List VelRow
  | r :: r1 :: rest => mkVel r r1 :: compute_velocity (r1 :: rest)
  | _ => []

/-- The row that `compute_velocity` (data_distribution.py) keeps for input
row `r1` with predecessor `r`: original columns of `r1`, backward-difference
velocities. -/
def mkVelBackward (r r1 : PosRow) : VelRow :=
  ⟨r1.timestamp, r1.tx, r1.ty, r1.tz,
   (r1.tx - r.tx) / (r1.timestamp - r.timestamp),
   (r1.ty - r.ty) / (r1.timestamp - r.timestamp),
   (r1.tz - r.tz) / (r1.timestamp - r.timestamp)⟩

/-- `compute_velocity` of data_distribution.py (lines 6-13): backward
differences (`diff()`), then `data.iloc[1:]` drops the first row, whose
backward difference is NaN. -/
def compute_velocity_backward : List PosRow → List VelRow
  | r :: r1 :: rest => mkVelBackward r r1 :: compute_velocity_backward (r1 :: rest)
  | _ => []

theorem compute_velocity_length :
    ∀ df : List PosRow, (compute_velocity df).length = df.length - 1
  | [] => rfl
  | [_] => rfl
  | _ :: r1 :: rest => by
    rw [compute_velocity, List.length_cons, compute_velocity_length (r1 :: rest)]
    simp

theorem compute_velocity_backward_length :
    ∀ df : List PosRow, (compute_velocity_backward df).length = df.length - 1
  | [] => rfl
  | [_] => rfl
  | _ :: r1 :: rest => by
    rw [compute_velocity_backward, List.length_cons,
      compute_velocity_backward_length (r1 :: rest)]
    simp

theorem compute_velocity_getD :
    ∀ (df : List PosRow) (i : ℕ), i + 1 < df.length →
      (compute_velocity df).getD i dVRow =
        mkVel (df.getD i dRow) (df.getD (i + 1) dRow)
  | [], _, h => by simp at h
  | [_], _, h => by simp at h
  | _ :: _ :: _, 0, _ => rfl
  | _ :: r1 :: rest, i + 1, h => by
    rw [compute_velocity]
    simpa using compute_velocity_getD (r1 :: rest) i (by simp at h ⊢; omega)

theorem compute_velocity_backward_getD :
    ∀ (df : List PosRow) (i : ℕ), i + 1 < df.length →
      (compute_velocity_backward df).getD i dVRow =
        mkVelBackward (df.getD i dRow) (df.getD (i + 1) dRow)
  | [], _, h => by simp at h
  | [_], _, h => by simp at h
  | _ :: _ :: _, 0, _ => rfl
  | _ :: r1 :: rest, i + 1, h => by
    rw [compute_velocity_backward]
    simpa using compute_velocity_backward_getD (r1 :: rest) i (by simp at h ⊢; omega)

/-- Claim C5: for a position trajectory of length `N ≥ 2` with strictly
increasing timestamps, both velocity derivations in the repository return a
trajectory of length `N - 1`, and each velocity component is the difference
of consecutive positions divided by the matching difference of consecutive
timestamps (the forward variant of compute_velocity.py keeps this at output
index `i` for rows `i, i+1`; the backward variant of data_distribution.py
keeps the same quotient, attached to row `i+1`). -/
theorem velocity_derivation_spec (df : List PosRow) (_hN : 2 ≤ df.length)
    (_hmono : df.Pairwise (fun a b => a.timestamp < b.timestamp)) :
    (compute_velocity df).length = df.length - 1 ∧
    (compute_velocity_backward df).length = df.length - 1 ∧
    (∀ i, i + 1 < df.length →
      ((compute_velocity df).getD i dVRow).vx =
        ((df.getD (i + 1) dRow).tx - (df.getD i dRow).tx) /
          ((df.getD (i + 1) dRow).timestamp - (df.getD i dRow).timestamp) ∧
      ((compute_velocity df).getD i dVRow).vy =
        ((df.getD (i + 1) dRow).ty - (df.getD i dRow).ty) /
          ((df.getD (i + 1) dRow).timestamp - (df.getD i dRow).timestamp) ∧
      ((compute_velocity df).getD i dVRow).vz =
        ((df.getD (i + 1) dRow).tz - (df.getD i dRow).tz) /
          ((df.getD (i + 1) dRow).timestamp - (df.getD i dRow).timestamp)) ∧
    (∀ i, i + 1 < df.length →
      ((compute_velocity_backward df).getD i dVRow).vx =
        ((df.getD (i + 1) dRow).tx - (df.getD i dRow).tx) /
          ((df.getD (i + 1) dRow).timestamp - (df.getD i dRow).timestamp) ∧
      ((compute_velocity_backward df).getD i dVRow).vy =
        ((df.getD (i + 1) dRow).ty - (df.getD i dRow).ty) /
          ((df.getD (i + 1) dRow).timestamp - (df.getD i dRow).timestamp) ∧
      ((compute_velocity_backward df).getD i dVRow).vz =
        ((df.getD (i + 1) dRow).tz - (df.getD i dRow).tz) /
          ((df.getD (i + 1) dRow).timestamp - (df.getD i dRow).timestamp)) := by
  refine ⟨compute_velocity_length df, compute_velocity_backward_length df, ?_, ?_⟩
  · intro i hi
    rw [compute_velocity_getD df i hi]
    exact ⟨rfl, rfl, rfl⟩
  · intro i hi
    rw [compute_velocity_backward_getD df i hi]
    exact ⟨rfl, rfl, rfl⟩

/-- Claim C5, witness at a concrete 3-row trajectory. -/
theorem velocity_derivation_witness :
    (2 ≤ (mkLinRows 3).length ∧
     (mkLinRows 3).Pairwise (fun a b => a.timestamp < b.timestamp)) ∧
    (compute_velocity (mkLinRows 3)).length = (mkLinRows 3).length - 1 ∧
    ((compute_velocity (mkLinRows 3)).getD 0 dVRow).vx =
      (((mkLinRows 3).getD 1 dRow).tx - ((mkLinRows 3).getD 0 dRow).tx) /
        (((mkLinRows 3).getD 1 dRow).timestamp -
          ((mkLinRows 3).getD 0 dRow).timestamp) := by
  have h := velocity_derivation_spec (mkLinRows 3) (by decide) (by decide)
  exact ⟨⟨by decide, by decide⟩, h.1, (h.2.2.1 0 (by decide)).1⟩

/-- Claim C10: the forward-difference derivation only adds the velocity
columns and drops the final row: every retained output row keeps the
`timestamp, tx, ty, tz` values of the input row with the same index. -/
theorem velocity_frame_effect (df : List PosRow) (i : ℕ)
    (hi : i + 1 < df.length) :
    (compute_velocity df).length = df.length - 1 ∧
    ((compute_velocity df).getD i dVRow).timestamp = (df.getD i dRow).timestamp ∧
    ((compute_velocity df).getD i dVRow).tx = (df.getD i dRow).tx ∧
    ((compute_velocity df).getD i dVRow).ty = (df.getD i dRow).ty ∧
    ((compute_velocity df).getD i dVRow).tz = (df.getD i dRow).tz := by
  rw [compute_velocity_getD df i hi]
  exact ⟨compute_velocity_length df, rfl, rfl, rfl, rfl⟩

/-- Claim C10, witness at a concrete 3-row trajectory and index 0. -/
theorem velocity_frame_effect_witness :
    (0 + 1 < (mkLinRows 3).length) ∧
    ((compute_velocity (mkLinRows 3)).length = (mkLinRows 3).length - 1 ∧
     ((compute_velocity (mkLinRows 3)).getD 0 dVRow).timestamp =
       ((mkLinRows 3).getD 0 dRow).timestamp ∧
     ((compute_velocity (mkLinRows 3)).getD 0 dVRow).tx =
       ((mkLinRows 3).getD 0 dRow).tx ∧
     ((compute_velocity (mkLinRows 3)).getD 0 dVRow).ty =
       ((mkLinRows 3).getD 0 dRow).ty ∧
     ((compute_velocity (mkLinRows 3)).getD 0 dVRow).tz =
       ((mkLinRows 3).getD 0 dRow).tz) :=
  ⟨by decide, velocity_frame_effect (mkLinRows 3) 0 (by decide)⟩

/-- A raw CSV cell before numeric coercion: either a numeric value or a
non-numeric text field. -/
inductive Cell where
  | num (q : ℚ)
  | text (s : String)
deriving DecidableEq

/-- `pd.to_numeric(col, errors='coerce')` at cell level: a non-numeric field
is coerced to the missing-value marker NaN, modelled as `none`. -/
def toNumericCell : Cell → Option ℚ
  | Cell.num q => some q
  | Cell.text _ => none

/-- One raw row of an input file, before cleaning (process_files of
compute_velocity.py, lines 104-127). -/
structure RawRow where
  timestamp : Cell
  tx : Cell
  ty : Cell
  tz : Cell
deriving DecidableEq

/-- Combined effect of the four `pd.to_numeric(..., errors='coerce')` calls
and `df.dropna(subset=['timestamp','tx','ty','tz'])` on one row: the row
survives iff all four fields are numeric. -/
def parseRow (r : RawRow) : Option PosRow :=
  match toNumericCell r.timestamp, toNumericCell r.tx,
      toNumericCell r.ty, toNumericCell r.tz with
  | some a, some b, some c, some d => some ⟨a, b, c, d⟩
  | _, _, _, _ => none

/-- The cleaned dataframe handed to the later pipeline stages. -/
def cleanRows (rows : List RawRow) : List PosRow := rows.filterMap parseRow

/-- A row is fully numeric iff cleaning keeps it. -/
def isNumericRow (r : RawRow) : Bool := (parseRow r).isSome

/-- The per-file pipeline of `process_files` with `--resample` off: coerce,
drop malformed rows, then compute velocities (the written output equals this
result; with `--velocity-only` a column projection of it). -/
def process_files (rows : List RawRow) : List VelRow :=
  compute_velocity (cleanRows rows)

theorem cleanRows_filter (rows : List RawRow) :
    cleanRows (rows.filter isNumericRow) = cleanRows rows := by
  induction rows with
  | nil => rfl
  | cons r rest ih =>
    by_cases h : isNumericRow r = true
    · rcases Option.isSome_iff_exists.mp h with ⟨p, hp⟩
      simp [cleanRows, List.filter, h, List.filterMap, hp] at ih ⊢
      exact ih
    · have hnone : parseRow r = none := by
        rcases hr : parseRow r with _ | p
        · rfl
        · exact absurd (by simp [isNumericRow, hr]) h
      simp [cleanRows, List.filter, h, List.filterMap, hnone] at ih ⊢
      exact ih

/-- Claim C9: rows with a non-numeric `timestamp`, `tx`, `ty` or `tz` field
are coerced to the missing-value marker and dropped before the velocity
computation: the cleaned data keeps exactly the fully numeric rows, and the
whole per-file output is unchanged if the malformed rows are deleted from the
input — malformed rows contribute to neither the computed velocities nor the
written output. -/
theorem malformed_rows_dropped (rows : List RawRow) :
    (cleanRows rows).length = (rows.filter isNumericRow).length ∧
    process_files rows = process_files (rows.filter isNumericRow) ∧
    (∀ r, isNumericRow r = false →
      cleanRows rows = cleanRows (rows.filter (fun x => x ≠ r))) := by
  refine ⟨?_, ?_, ?_⟩
  · rw [← cleanRows_filter rows]
    induction rows with
    | nil => rfl
    | cons r rest ih =>
      by_cases h : isNumericRow r = true
      · rcases Option.isSome_iff_exists.mp h with ⟨p, hp⟩
        simp [cleanRows, List.filter, h, List.filterMap, hp] at ih ⊢
        exact ih
      · simp [cleanRows, List.filter, h, List.filterMap] at ih ⊢
        exact ih
  · rw [process_files, process_files, cleanRows_filter]
  · intro r hbad
    induction rows with
    | nil => rfl
    | cons x rest ih =>
      by_cases hx : x = r
      · subst hx
        have hnone : parseRow x = none := by
          rcases hr : parseRow x with _ | p
          · rfl
          · rw [isNumericRow, hr] at hbad; simp at hbad
        simpa [cleanRows, List.filter, List.filterMap, hnone] using ih
      · rcases hp : parseRow x with _ | p <;>
          simpa [cleanRows, List.filter, List.filterMap, hp, hx] using ih

/-- `np.arange(start, stop, step)`: the values `start + k * step` for
`0 ≤ k < ceil((stop - start) / step)` (empty when the quotient is not
positive). -/
def npArange (start stop step : ℚ) : List ℚ :=
  (List.range (Int.toNat ⌈(stop - start) / step⌉)).map
    fun k : ℕ => start + (k : ℚ) * step

/-- The comparison key of `df.sort_values('timestamp')`. -/
def leTs (a b : PosRow) : Prop := a.timestamp ≤ b.timestamp

instance : DecidableRel leTs :=
  fun a b => inferInstanceAs (Decidable (a.timestamp ≤ b.timestamp))

instance : IsTotal PosRow leTs :=
  ⟨fun a b => le_total a.timestamp b.timestamp⟩

instance : IsTrans PosRow leTs :=
  ⟨fun _ _ _ hab hbc => le_trans hab hbc⟩

/-- `df.sort_values('timestamp')`.  pandas uses an unstable quicksort, so the
relative order of rows with equal timestamps is unspecified; we model the
sort by a deterministic (stable) insertion sort, which realises one of the
permitted orders. -/
def sortByTs (df : List PosRow) : List PosRow := List.insertionSort leTs df

/-- `df['timestamp'].min()` (resample_trajectory.py line 17); 0 on an empty
frame only as a total-function default, no claim uses it there. -/
def minTs (df : List PosRow) : ℚ :=
  match df.map PosRow.timestamp with
  | [] => 0
  | t :: ts => ts.foldl min t

/-- `df['timestamp'].max()` (resample_trajectory.py line 17). -/
def maxTs (df : List PosRow) : ℚ :=
  match df.map PosRow.timestamp with
  | [] => 0
  | t :: ts => ts.foldl max t

/-- `np.interp(t, xp, fp)` with the sample points given as `(xp, fp)` pairs:
piecewise-linear interpolation, clamped to the end values outside the range.
(`scipy.interpolate.interp1d(..., fill_value="extrapolate")` agrees with this
on queries inside `[xp[0], xp[-1]]`, which is where the scripts evaluate
it.) -/
def npInterp (t : ℚ) : List (ℚ × ℚ) → ℚ
  | [] => 0
  | [(_, y)] => y
  | (x1, y1) :: (x2, y2) :: rest =>
    if t ≤ x1 then y1
    else if t ≤ x2 then y1 + (t - x1) * (y2 - y1) / (x2 - x1)
    else npInterp t ((x2, y2) :: rest)

/-- `drop_duplicates(subset='timestamp')` (compute_velocity.py line 72):
keep a row iff no earlier row has the same timestamp, i.e. keep the first
occurrence of each timestamp. -/
def dropDupTs : List PosRow → List PosRow
  | [] => []
  | r :: rs =>
    r :: dropDupTs (rs.filter fun x => x.timestamp ≠ r.timestamp)
termination_by l => l.length
decreasing_by
  simp only [List.length_cons]
  exact Nat.lt_succ_of_le (List.length_filter_le _ _)

/-- The timestamp sequence handed to `np.interp` by `resample_trajectory`
(resample_trajectory.py lines 20-22): the sorted column, duplicates
included. -/
def interpTsRT (df : List PosRow) : List ℚ :=
  (sortByTs df).map PosRow.timestamp

/-- The timestamp sequence handed to `interp1d` by `resample_data`
(compute_velocity.py lines 75-77): sorted, then duplicates dropped. -/
def interpTsRD (df : List PosRow) : List ℚ :=
  (dropDupTs (sortByTs df)).map PosRow.timestamp

/-- `resample_trajectory` of resample_trajectory.py (lines 12-32): sort by
timestamp, build `np.arange(min, max, sampling_time)`, linearly interpolate
each channel of the sorted frame at the new timestamps. -/
def resample_trajectory (df : List PosRow) (dt : ℚ) : List PosRow :=
  (npArange (minTs df) (maxTs df) dt).map fun t =>
    PosRow.mk t
      (npInterp t ((sortByTs df).map fun r => (r.timestamp, r.tx)))
      (npInterp t ((sortByTs df).map fun r => (r.timestamp, r.ty)))
      (npInterp t ((sortByTs df).map fun r => (r.timestamp, r.tz)))

/-- `resample_data` of compute_velocity.py (lines 60-91): sort by timestamp,
take the new range from the first and last sorted timestamps, drop duplicate
timestamps, interpolate each channel of the deduplicated frame. -/
def resample_data (df : List PosRow) (dt : ℚ) : List PosRow :=
  (npArange ((sortByTs df).headD dRow).timestamp
      ((sortByTs df).getLastD dRow).timestamp dt).map fun t =>
    PosRow.mk t
      (npInterp t ((dropDupTs (sortByTs df)).map fun r => (r.timestamp, r.tx)))
      (npInterp t ((dropDupTs (sortByTs df)).map fun r => (r.timestamp, r.ty)))
      (npInterp t ((dropDupTs (sortByTs df)).map fun r => (r.timestamp, r.tz)))

theorem dropDupTs_sublist : ∀ l : List PosRow, (dropDupTs l).Sublist l
  | [] => by rw [dropDupTs]
  | r :: rs => by
    rw [dropDupTs]
    exact List.Sublist.cons₂ r
      ((dropDupTs_sublist (rs.filter fun x => x.timestamp ≠ r.timestamp)).trans
        (List.filter_sublist rs))
termination_by l => l.length
decreasing_by
  simp only [List.length_cons]
  exact Nat.lt_succ_of_le (List.length_filter_le _ _)

theorem dropDupTs_mem {l : List PosRow} {x : PosRow}
    (hx : x ∈ dropDupTs l) : x ∈ l :=
  (dropDupTs_sublist l).mem hx

theorem dropDupTs_pairwise_lt : ∀ l : List PosRow, l.Pairwise leTs →
    (dropDupTs l).Pairwise (fun a b => a.timestamp < b.timestamp)
  | [] => fun _ => by rw [dropDupTs]; exact List.Pairwise.nil
  | r :: rs => fun h => by
    rw [dropDupTs]
    rw [List.pairwise_cons] at h
    refine List.pairwise_cons.mpr ⟨?_, ?_⟩
    · intro y hy
      have hmem := List.mem_filter.mp (dropDupTs_mem hy)
      have hne : ¬ y.timestamp = r.timestamp := by simpa using hmem.2
      exact lt_of_le_of_ne (h.1 y hmem.1) (fun e => hne e.symm)
    · exact dropDupTs_pairwise_lt _
        (h.2.sublist (List.filter_sublist rs))
termination_by l => l.length
decreasing_by
  simp only [List.length_cons]
  exact Nat.lt_succ_of_le (List.length_filter_le _ _)

theorem dropDupTs_covers : ∀ l : List PosRow, ∀ x ∈ l,
    ∃ y ∈ dropDupTs l, y.timestamp = x.timestamp
  | [] => by simp
  | r :: rs => fun x hx => by
    rw [dropDupTs]
    rcases List.mem_cons.mp hx with hx | hx
    · exact ⟨r, List.mem_cons_self _ _, by rw [hx]⟩
    · by_cases hts : x.timestamp = r.timestamp
      · exact ⟨r, List.mem_cons_self _ _, hts.symm⟩
      · have hx' : x ∈ rs.filter fun z => z.timestamp ≠ r.timestamp :=
          List.mem_filter.mpr ⟨hx, by simpa using hts⟩
        obtain ⟨y, hy, hyts⟩ := dropDupTs_covers _ x hx'
        exact ⟨y, List.mem_cons_of_mem _ hy, hyts⟩
termination_by l => l.length
decreasing_by
  simp only [List.length_cons]
  exact Nat.lt_succ_of_le (List.length_filter_le _ _)

theorem dropDupTs_keeps_first : ∀ l : List PosRow, ∀ y ∈ dropDupTs l,
    (l.filter fun z => z.timestamp = y.timestamp).head? = some y
  | [] => by simp [dropDupTs]
  | r :: rs => fun y hy => by
    rw [dropDupTs] at hy
    rcases List.mem_cons.mp hy with hy | hy
    · subst hy
      simp [List.filter]
    · have hyne : ¬ y.timestamp = r.timestamp := by
        simpa using (List.mem_filter.mp (dropDupTs_mem hy)).2
      have ih := dropDupTs_keeps_first _ y hy
      rw [List.filter_filter] at ih
      have hsame :
          (rs.filter fun z =>
              decide (z.timestamp = y.timestamp) &&
                decide (z.timestamp ≠ r.timestamp)) =
            rs.filter fun z => z.timestamp = y.timestamp := by
        apply List.filter_congr
        intro z _
        by_cases hz : z.timestamp = y.timestamp
        · simp [hz, hyne]
        · simp [hz]
      rw [hsame] at ih
      rw [List.filter_cons, if_neg (by simpa using fun e => hyne e.symm)]
      exact ih
termination_by l => l.length
decreasing_by
  simp only [List.length_cons]
  exact Nat.lt_succ_of_le (List.length_filter_le _ _)

/-- Claim C8, counterexample: `resample_trajectory` (resample_trajectory.py)
performs no duplicate removal.  On an input with a repeated timestamp the
sequence handed to `np.interp` is `[0, 0, 1]` — it still contains the
duplicate and is not strictly increasing, contradicting the claim for this
resampling routine. -/
theorem resample_dedup_cex :
    interpTsRT [PosRow.mk 0 1 0 0, PosRow.mk 0 2 0 0, PosRow.mk 1 3 0 0] =
      [0, 0, 1] ∧
    ¬ List.Pairwise (fun a b : ℚ => a < b)
      (interpTsRT [PosRow.mk 0 1 0 0, PosRow.mk 0 2 0 0, PosRow.mk 1 3 0 0]) := by
  constructor
  · rfl
  · intro h
    have := (List.pairwise_cons.mp h).1 0 (by simp)
    exact absurd this (by norm_num)

/-- Claim C8, amended: the `resample_data` variant (compute_velocity.py)
removes duplicate timestamps after sorting and before interpolation, keeping
for each timestamp exactly the first row carrying it in the sorted order, so
its interpolation operates on a strictly increasing timestamp sequence in
which every input timestamp still occurs; the `resample_trajectory` variant
(resample_trajectory.py) performs no duplicate removal. -/
theorem resample_dedup_amended (df : List PosRow) :
    List.Pairwise (fun a b : ℚ => a < b) (interpTsRD df) ∧
    (∀ x ∈ sortByTs df, ∃ y ∈ dropDupTs (sortByTs df),
      y.timestamp = x.timestamp) ∧
    (∀ y ∈ dropDupTs (sortByTs df),
      ((sortByTs df).filter fun z => z.timestamp = y.timestamp).head? =
        some y) := by
  refine ⟨?_, dropDupTs_covers (sortByTs df), dropDupTs_keeps_first (sortByTs df)⟩
  rw [interpTsRD, List.pairwise_map]
  exact dropDupTs_pairwise_lt (sortByTs df) (List.sorted_insertionSort leTs df)

theorem foldl_min_of_le (l : List ℚ) (a : ℚ) (h : ∀ x ∈ l, a ≤ x) :
    l.foldl min a = a := by
  induction l generalizing a with
  | nil => rfl
  | cons b t ih =>
    rw [List.foldl_cons, min_eq_left (h b (by simp))]
    exact ih a fun x hx => h x (by simp [hx])

theorem sorted_foldl_max :
    ∀ (l : List ℚ) (a : ℚ), (a :: l).Pairwise (fun x y : ℚ => x ≤ y) →
      l.foldl max a = l.getLastD a
  | [], _ => fun _ => rfl
  | b :: t, a => fun h => by
    have hab : a ≤ b := (List.pairwise_cons.mp h).1 b (by simp)
    have ht : (b :: t).Pairwise (fun x y : ℚ => x ≤ y) :=
      (List.pairwise_cons.mp h).2
    rw [List.foldl_cons, max_eq_right hab, List.getLastD_cons]
    exact sorted_foldl_max t b ht

theorem getLastD_map_ts : ∀ (l : List PosRow) (r : PosRow),
    (l.map PosRow.timestamp).getLastD r.timestamp = (l.getLastD r).timestamp
  | [], _ => rfl
  | x :: xs, _ => by
    rw [List.map_cons, List.getLastD_cons, List.getLastD_cons]
    exact getLastD_map_ts xs x

theorem minTs_sorted (df : List PosRow) (hne : df ≠ [])
    (hsort : df.Pairwise leTs) :
    minTs df = (df.headD dRow).timestamp := by
  obtain ⟨r, rest, rfl⟩ := List.exists_cons_of_ne_nil hne
  rw [minTs]
  simp only [List.map_cons, List.headD_cons]
  exact foldl_min_of_le _ _ fun x hx => by
    obtain ⟨z, hz, rfl⟩ := List.mem_map.mp hx
    exact (List.pairwise_cons.mp hsort).1 z hz

theorem maxTs_sorted (df : List PosRow) (hne : df ≠ [])
    (hsort : df.Pairwise leTs) :
    maxTs df = (df.getLastD dRow).timestamp := by
  obtain ⟨r, rest, rfl⟩ := List.exists_cons_of_ne_nil hne
  rw [maxTs]
  simp only [List.map_cons]
  have hp : (r.timestamp :: rest.map PosRow.timestamp).Pairwise
      (fun x y : ℚ => x ≤ y) := by
    rw [← List.map_cons]
    exact List.pairwise_map.mpr hsort
  rw [sorted_foldl_max _ _ hp, getLastD_map_ts rest r, List.getLastD_cons]

theorem npArange_ne_nil (s e d : ℚ) (h : s < e) (hd : 0 < d) :
    npArange s e d ≠ [] := by
  have hx : 0 < (e - s) / d := div_pos (by linarith) hd
  have hc : 0 < ⌈(e - s) / d⌉ := Int.ceil_pos.mpr hx
  have : 0 < (npArange s e d).length := by
    rw [npArange, List.length_map, List.length_range]
    omega
  exact List.ne_nil_of_length_pos this

theorem npArange_headD (s e d : ℚ) (h : s < e) (hd : 0 < d) :
    (npArange s e d).headD 0 = s := by
  have hx : 0 < (e - s) / d := div_pos (by linarith) hd
  have hc : 0 < ⌈(e - s) / d⌉ := Int.ceil_pos.mpr hx
  obtain ⟨n, hn⟩ : ∃ n : ℕ, Int.toNat ⌈(e - s) / d⌉ = n + 1 :=
    ⟨Int.toNat ⌈(e - s) / d⌉ - 1, by omega⟩
  rw [npArange, hn, List.range_succ_eq_map]
  simp

theorem npArange_mem_lt (s e d : ℚ) (hd : 0 < d) :
    ∀ t ∈ npArange s e d, t < e := by
  intro t ht
  rw [npArange, List.mem_map] at ht
  obtain ⟨k, hk, rfl⟩ := ht
  rw [List.mem_range] at hk
  have hkc : (k : ℤ) < ⌈(e - s) / d⌉ := by omega
  have h1 : ((k : ℚ)) < (e - s) / d := by
    have h2 : ((⌈(e - s) / d⌉ : ℚ)) < (e - s) / d + 1 := Int.ceil_lt_add_one _
    have h3 : ((k : ℚ)) + 1 ≤ ((⌈(e - s) / d⌉ : ℚ)) := by
      exact_mod_cast Int.add_one_le_iff.mpr hkc
    linarith
  have h4 : (k : ℚ) * d < (e - s) / d * d :=
    mul_lt_mul_of_pos_right h1 hd
  rw [div_mul_cancel₀ _ (ne_of_gt hd)] at h4
  linarith

/-- Claim C6: for a (sorted, per the data-model invariant) trajectory whose
first timestamp is strictly below its last, and any `Δt > 0`, both resampling
routines produce a non-empty output whose timestamp column starts exactly at
the first original timestamp and never exceeds the last original
timestamp. -/
theorem resample_endpoints (df : List PosRow) (dt : ℚ)
    (hne : df ≠ []) (hsort : df.Pairwise leTs)
    (hfl : (df.headD dRow).timestamp < (df.getLastD dRow).timestamp)
    (hdt : 0 < dt) :
    (resample_trajectory df dt).map PosRow.timestamp =
      npArange (minTs df) (maxTs df) dt ∧
    (resample_data df dt).map PosRow.timestamp =
      (resample_trajectory df dt).map PosRow.timestamp ∧
    resample_trajectory df dt ≠ [] ∧
    ((resample_trajectory df dt).headD dRow).timestamp =
      (df.headD dRow).timestamp ∧
    (∀ r ∈ resample_trajectory df dt,
      r.timestamp ≤ (df.getLastD dRow).timestamp) ∧
    resample_data df dt ≠ [] ∧
    ((resample_data df dt).headD dRow).timestamp =
      (df.headD dRow).timestamp ∧
    (∀ r ∈ resample_data df dt,
      r.timestamp ≤ (df.getLastD dRow).timestamp) := by
  have hmin : minTs df = (df.headD dRow).timestamp := minTs_sorted df hne hsort
  have hmax : maxTs df = (df.getLastD dRow).timestamp := maxTs_sorted df hne hsort
  have hsid : sortByTs df = df := List.Sorted.insertionSort_eq hsort
  have hRT : (resample_trajectory df dt).map PosRow.timestamp =
      npArange (minTs df) (maxTs df) dt := by
    rw [resample_trajectory, List.map_map]
    exact List.map_id _
  have hRD : (resample_data df dt).map PosRow.timestamp =
      npArange (minTs df) (maxTs df) dt := by
    rw [resample_data, List.map_map, hsid, hmin, hmax]
    exact List.map_id _
  have hlt : minTs df < maxTs df := by rw [hmin, hmax]; exact hfl
  have hA_ne : npArange (minTs df) (maxTs df) dt ≠ [] :=
    npArange_ne_nil _ _ _ hlt hdt
  have hA_head : (npArange (minTs df) (maxTs df) dt).headD 0 = minTs df :=
    npArange_headD _ _ _ hlt hdt
  have hhead : ∀ (l : List PosRow), l.map PosRow.timestamp =
      npArange (minTs df) (maxTs df) dt →
        l ≠ [] ∧ (l.headD dRow).timestamp = (df.headD dRow).timestamp ∧
        ∀ r ∈ l, r.timestamp ≤ (df.getLastD dRow).timestamp := by
    intro l hl
    have hlne : l ≠ [] := by
      intro hcon
      rw [hcon] at hl
      exact hA_ne hl.symm
    obtain ⟨a, l', rfl⟩ := List.exists_cons_of_ne_nil hlne
    refine ⟨hlne, ?_, ?_⟩
    · have : a.timestamp = (npArange (minTs df) (maxTs df) dt).headD 0 := by
        rw [← hl]; rfl
      rw [List.headD_cons, this, hA_head, hmin]
    · intro r hr
      have hmem : r.timestamp ∈ npArange (minTs df) (maxTs df) dt := by
        rw [← hl]
        exact List.mem_map.mpr ⟨r, hr, rfl⟩
      have := npArange_mem_lt (minTs df) (maxTs df) dt hdt _ hmem
      rw [hmax] at this
      exact le_of_lt this
  obtain ⟨h1, h2, h3⟩ := hhead _ hRT
  obtain ⟨h4, h5, h6⟩ := hhead _ hRD
  exact ⟨hRT, by rw [hRD, hRT], h1, h2, h3, h4, h5, h6⟩

/-- Claim C6, witness at a concrete two-row trajectory and `Δt = 3/10`. -/
theorem resample_endpoints_witness :
    ([PosRow.mk 0 0 0 0, PosRow.mk 1 1 1 1] ≠ ([] : List PosRow) ∧
     List.Pairwise leTs [PosRow.mk 0 0 0 0, PosRow.mk 1 1 1 1] ∧
     (([PosRow.mk 0 0 0 0, PosRow.mk 1 1 1 1].headD dRow).timestamp <
       ([PosRow.mk 0 0 0 0, PosRow.mk 1 1 1 1].getLastD dRow).timestamp) ∧
     (0 : ℚ) < 3 / 10) ∧
    resample_trajectory [PosRow.mk 0 0 0 0, PosRow.mk 1 1 1 1] (3 / 10) ≠ [] ∧
    ((resample_trajectory [PosRow.mk 0 0 0 0, PosRow.mk 1 1 1 1]
        (3 / 10)).headD dRow).timestamp =
      (([PosRow.mk 0 0 0 0, PosRow.mk 1 1 1 1] : List PosRow).headD
        dRow).timestamp := by
  have h := resample_endpoints [PosRow.mk 0 0 0 0, PosRow.mk 1 1 1 1] (3 / 10)
    (by decide) (by decide) (by norm_num [dRow]) (by norm_num)
  exact ⟨⟨by decide, by decide, by norm_num [dRow], by norm_num⟩,
    h.2.2.1, h.2.2.2.1⟩

open Matrix

/-- `pos_df.mean()` (pandas column mean) of the pooled sample, viewed as a
function `Fin n → Fin 3 → ℚ` (row index, channel index); key `input_mean` of
the statistics record of `compute_stats`. -/
def input_mean {n : ℕ} (data : Fin n → Fin 3 → ℚ) (j : Fin 3) : ℚ :=
  (∑ i, data i j) / (n : ℚ)

/-- A sample entry re-centred at the column mean (`x - mean`). -/
def centered {n : ℕ} (data : Fin n → Fin 3 → ℚ) (i : Fin n) (j : Fin 3) : ℚ :=
  data i j - input_mean data j

/-- `pos_df.cov()` (pandas sample covariance, `ddof = 1`): key `cov_matrix`
of the statistics record of `compute_stats`. -/
def cov_matrix {n : ℕ} (data : Fin n → Fin 3 → ℚ) :
    Matrix (Fin 3) (Fin 3) ℚ :=
  Matrix.of fun j k =>
    (∑ i, centered data i j * centered data i k) / ((n : ℚ) - 1)

/-- The whitening transform of `process_file` (compute_stats.py lines 49-52):
`np.dot(M, (data - mean).T).T`, i.e. row `i` becomes `M @ (x_i - mean)`.  The
source applies it with `M = L_matrix`; the spec asserts properties of that
choice. -/
def whiten {n : ℕ} (M : Matrix (Fin 3) (Fin 3) ℚ)
    (data : Fin n → Fin 3 → ℚ) : Fin n → Fin 3 → ℚ :=
  fun i => M.mulVec fun j => centered data i j

theorem sum_centered {n : ℕ} (data : Fin n → Fin 3 → ℚ)
    (hn : (n : ℚ) ≠ 0) (j : Fin 3) : ∑ i, centered data i j = 0 := by
  simp only [centered, input_mean]
  rw [Finset.sum_sub_distrib, Finset.sum_const, Finset.card_univ,
    Fintype.card_fin, nsmul_eq_mul]
  field_simp

theorem input_mean_whiten {n : ℕ} (data : Fin n → Fin 3 → ℚ)
    (hn : (n : ℚ) ≠ 0) (M : Matrix (Fin 3) (Fin 3) ℚ) (j : Fin 3) :
    input_mean (whiten M data) j = 0 := by
  rw [input_mean]
  have : ∑ i, whiten M data i j = 0 := by
    simp only [whiten, Matrix.mulVec, Matrix.dotProduct]
    rw [Finset.sum_comm]
    refine Finset.sum_eq_zero fun k _ => ?_
    rw [← Finset.mul_sum, sum_centered data hn k, mul_zero]
  rw [this, zero_div]

theorem centered_whiten {n : ℕ} (data : Fin n → Fin 3 → ℚ)
    (hn : (n : ℚ) ≠ 0) (M : Matrix (Fin 3) (Fin 3) ℚ) (i : Fin n) (j : Fin 3) :
    centered (whiten M data) i j = whiten M data i j := by
  rw [centered, input_mean_whiten data hn M j, sub_zero]

theorem cov_matrix_whiten {n : ℕ} (data : Fin n → Fin 3 → ℚ)
    (hn : (n : ℚ) ≠ 0) (M : Matrix (Fin 3) (Fin 3) ℚ) :
    cov_matrix (whiten M data) = M * cov_matrix data * Mᵀ := by
  ext j k
  simp only [cov_matrix, Matrix.of_apply, Matrix.mul_apply, Matrix.transpose_apply]
  have hexp : ∀ i : Fin n,
      centered (whiten M data) i j * centered (whiten M data) i k =
        ∑ a, ∑ b, M j a * M k b * (centered data i a * centered data i b) := by
    intro i
    rw [centered_whiten data hn M i j, centered_whiten data hn M i k]
    simp only [whiten, Matrix.mulVec, Matrix.dotProduct]
    rw [Finset.sum_mul_sum]
    exact Finset.sum_congr rfl fun a _ => Finset.sum_congr rfl fun b _ => by ring
  rw [Finset.sum_congr rfl fun i _ => hexp i]
  rw [Finset.sum_comm]
  have hswap : ∀ a : Fin 3,
      (∑ i, ∑ b, M j a * M k b * (centered data i a * centered data i b)) =
        ∑ b, M j a * M k b * ∑ i, centered data i a * centered data i b := by
    intro a
    rw [Finset.sum_comm]
    exact Finset.sum_congr rfl fun b _ => by rw [← Finset.mul_sum]
  rw [Finset.sum_congr rfl fun a _ => hswap a]
  have hrhs : ∀ b : Fin 3,
      (∑ a, M j a *
          ((∑ i, centered data i a * centered data i b) / ((n : ℚ) - 1))) *
        M k b =
        (∑ a, M j a * M k b *
          (∑ i, centered data i a * centered data i b)) / ((n : ℚ) - 1) := by
    intro b
    rw [Finset.sum_mul, Finset.sum_div]
    exact Finset.sum_congr rfl fun a _ => by ring
  rw [Finset.sum_congr rfl fun b _ => hrhs b, ← Finset.sum_div]
  congr 1
  exact Finset.sum_comm

/-- `pos_df.var()` per axis (pandas, `ddof = 1`): the diagonal of the sample
covariance, i.e. the squared `input_std` entry of the statistics record. -/
def input_var {n : ℕ} (data : Fin n → Fin 3 → ℚ) (j : Fin 3) : ℚ :=
  cov_matrix data j j

/-- The pooled sample used for the concrete whitening counterexample: five
3-d points with exact mean `0` and sample covariance
`[[5, -2, 0], [-2, 1, 0], [0, 0, 1]]`. -/
def data5 : Fin 5 → Fin 3 → ℚ :=
  ![![-1, 1, 1], ![3, -1, -1], ![-3, 1, -1], ![1, -1, 1], ![0, 0, 0]]

/-- The Cholesky factor of the inverse covariance of `data5`: lower
triangular, positive diagonal, `L0 * L0ᵀ = (cov_matrix data5)⁻¹` — exactly
the `L_matrix` that `compute_stats` stores for this sample. -/
def L0 : Matrix (Fin 3) (Fin 3) ℚ :=
  Matrix.of ![![1, 0, 0], ![2, 1, 0], ![0, 0, 1]]

/-- Claim C1, counterexample: `L0` is the Cholesky factor of the inverse
covariance of the pooled sample `data5` (lower triangular, positive diagonal,
`L0 * L0ᵀ * cov = 1`), yet the transform `x ↦ L0 @ (x - mean)` that
`process_file` applies gives a first-axis sample variance of `5`, not `1`:
whitening with the factor `L` itself (instead of `Lᵀ`) does not unit-scale
the data. -/
theorem whitening_unit_variance_cex :
    (∀ j k : Fin 3, j < k → L0 j k = 0) ∧
    (∀ j : Fin 3, 0 < L0 j j) ∧
    (L0 * L0ᵀ) * cov_matrix data5 = 1 ∧
    (∀ j : Fin 3, input_mean (whiten L0 data5) j = 0) ∧
    input_var (whiten L0 data5) 0 = 5 ∧
    input_var (whiten L0 data5) 0 ≠ 1 := by
  refine ⟨by decide, by decide, ?_, ?_, ?_, ?_⟩
  · ext j k
    fin_cases j <;> fin_cases k <;>
      norm_num [L0, data5, cov_matrix, centered, input_mean, Matrix.mul_apply,
        Matrix.one_apply, Matrix.transpose, Matrix.vecHead, Matrix.vecTail,
        Function.comp, Fin.sum_univ_succ, Fin.ext_iff]
  · exact fun j => input_mean_whiten data5 (by norm_num) L0 j
  · norm_num [L0, data5, input_var, cov_matrix, centered, input_mean, whiten,
      Matrix.mulVec, Matrix.dotProduct, Matrix.vecHead, Matrix.vecTail,
      Function.comp, Fin.sum_univ_succ]
  · norm_num [L0, data5, input_var, cov_matrix, centered, input_mean, whiten,
      Matrix.mulVec, Matrix.dotProduct, Matrix.vecHead, Matrix.vecTail,
      Function.comp, Fin.sum_univ_succ]

/-- Claim C1, amended: if `L` is (any matrix with the defining property of)
the stored Cholesky factor of the inverse pooled covariance, then the applied
transform `x ↦ L @ (x - mean)` does re-centre the pooled sample at zero mean,
and the transform `x ↦ Lᵀ @ (x - mean)` — the transpose of what the code
applies — yields zero mean, unit per-axis variance, and in fact identity
covariance. -/
theorem whitening_amended {n : ℕ} (data : Fin n → Fin 3 → ℚ)
    (L : Matrix (Fin 3) (Fin 3) ℚ) (hn : 2 ≤ n)
    (hL : (L * Lᵀ) * cov_matrix data = 1) :
    (∀ j, input_mean (whiten L data) j = 0) ∧
    (∀ j, input_mean (whiten Lᵀ data) j = 0) ∧
    cov_matrix (whiten Lᵀ data) = 1 ∧
    (∀ j, input_var (whiten Lᵀ data) j = 1) := by
  have hn0 : (n : ℚ) ≠ 0 := Nat.cast_ne_zero.mpr (by omega)
  have hcov : cov_matrix (whiten Lᵀ data) = 1 := by
    rw [cov_matrix_whiten data hn0 Lᵀ, Matrix.transpose_transpose]
    have h3 : L * (Lᵀ * cov_matrix data) = 1 := by
      rw [← Matrix.mul_assoc]; exact hL
    exact Matrix.mul_eq_one_comm.mp h3
  refine ⟨fun j => input_mean_whiten data hn0 L j,
    fun j => input_mean_whiten data hn0 Lᵀ j, hcov, fun j => ?_⟩
  rw [input_var, hcov, Matrix.one_apply_eq]

/-- Claim C1, witness: at the concrete pooled sample `data5` and its stored
factor `L0`, the transpose transform has unit first-axis variance. -/
theorem whitening_amended_witness :
    (2 ≤ 5 ∧ (L0 * L0ᵀ) * cov_matrix data5 = 1) ∧
    (∀ j, input_mean (whiten L0 data5) j = 0) ∧
    input_var (whiten L0ᵀ data5) 0 = 1 := by
  have hL : (L0 * L0ᵀ) * cov_matrix data5 = 1 := whitening_unit_variance_cex.2.2.1
  have h := whitening_amended data5 L0 (by omega) hL
  exact ⟨⟨by omega, hL⟩, h.1, h.2.2.2 0⟩

/-- Explicit 3×3 determinant (cofactor expansion along the first row). -/
def det3 (A : Matrix (Fin 3) (Fin 3) ℚ) : ℚ :=
  A 0 0 * (A 1 1 * A 2 2 - A 1 2 * A 2 1)
    - A 0 1 * (A 1 0 * A 2 2 - A 1 2 * A 2 0)
    + A 0 2 * (A 1 0 * A 2 1 - A 1 1 * A 2 0)

/-- Explicit 3×3 inverse (adjugate over determinant). -/
def inv3 (A : Matrix (Fin 3) (Fin 3) ℚ) : Matrix (Fin 3) (Fin 3) ℚ :=
  (det3 A)⁻¹ • Matrix.of
    ![![A 1 1 * A 2 2 - A 1 2 * A 2 1,
        -(A 0 1 * A 2 2 - A 0 2 * A 2 1),
        A 0 1 * A 1 2 - A 0 2 * A 1 1],
      ![-(A 1 0 * A 2 2 - A 1 2 * A 2 0),
        A 0 0 * A 2 2 - A 0 2 * A 2 0,
        -(A 0 0 * A 1 2 - A 0 2 * A 1 0)],
      ![A 1 0 * A 2 1 - A 1 1 * A 2 0,
        -(A 0 0 * A 2 1 - A 0 1 * A 2 0),
        A 0 0 * A 1 1 - A 0 1 * A 1 0]]

/-- `np.linalg.inv` on a 3×3 matrix: raises `LinAlgError: Singular matrix`
exactly when the determinant vanishes (LAPACK getrf detects the zero pivot),
otherwise returns the inverse. -/
def npInv (A : Matrix (Fin 3) (Fin 3) ℚ) :
    Except String (Matrix (Fin 3) (Fin 3) ℚ) :=
  if det3 A = 0 then Except.error "LinAlgError: Singular matrix"
  else Except.ok (inv3 A)

/-- Success test of `np.linalg.cholesky` on a (symmetric) 3×3 matrix: LAPACK
potrf succeeds iff the matrix is positive definite, i.e. iff the three
leading principal minors are positive (Sylvester; potrf reads the lower
triangle, and the matrices reaching this call — inverses of symmetric sample
covariances — are symmetric).  Only the success/failure outcome is modelled:
the numeric factor lives in a real quadratic extension, outside ℚ. -/
def npCholeskyCheck (A : Matrix (Fin 3) (Fin 3) ℚ) : Except String Unit :=
  if 0 < A 0 0 ∧ 0 < A 0 0 * A 1 1 - A 0 1 * A 1 0 ∧ 0 < det3 A then
    Except.ok ()
  else Except.error "LinAlgError: Matrix is not positive definite"

/-- The outcome of the `L_matrix` computation of `compute_stats`
(compute_stats.py line 88): `np.linalg.cholesky(np.linalg.inv(pos_df.cov()))`
— error exactly when one of the two library calls raises. -/
def compute_stats_L_matrix {n : ℕ} (data : Fin n → Fin 3 → ℚ) :
    Except String Unit :=
  (npInv (cov_matrix data)).bind fun Ci => npCholeskyCheck Ci

/-- Claim C4: on collinear position data — every sample of the form
`p + t i • v`, which covers noiseless pure-linear trajectories — the pooled
covariance is singular (rank ≤ 1), so the inverse step of the `L_matrix`
computation fails loudly with numpy's `LinAlgError: Singular matrix` instead
of returning a record polluted with NaN. -/
theorem stats_singular_covariance_errors {n : ℕ} (data : Fin n → Fin 3 → ℚ)
    (p v : Fin 3 → ℚ) (t : Fin n → ℚ) (hn : 2 ≤ n)
    (hdata : ∀ i j, data i j = p j + t i * v j) :
    compute_stats_L_matrix data =
      Except.error "LinAlgError: Singular matrix" := by
  have hn0 : (n : ℚ) ≠ 0 := Nat.cast_ne_zero.mpr (by omega)
  have hmean : ∀ j, input_mean data j = p j + (∑ i, t i) / (n : ℚ) * v j := by
    intro j
    rw [input_mean]
    simp only [hdata]
    rw [Finset.sum_add_distrib, Finset.sum_const, Finset.card_univ,
      Fintype.card_fin, nsmul_eq_mul, ← Finset.sum_mul]
    field_simp
    ring
  have hc : ∀ i j, centered data i j = (t i - (∑ i', t i') / (n : ℚ)) * v j := by
    intro i j
    rw [centered, hmean, hdata]
    ring
  have hcov : ∀ j k, cov_matrix data j k =
      (∑ i, (t i - (∑ i', t i') / (n : ℚ))^2) / ((n : ℚ) - 1) * (v j * v k) := by
    intro j k
    rw [cov_matrix]
    simp only [Matrix.of_apply, hc]
    rw [div_mul_eq_mul_div]
    congr 1
    rw [Finset.sum_mul]
    exact Finset.sum_congr rfl fun i _ => by ring
  have hdet : det3 (cov_matrix data) = 0 := by
    rw [det3, hcov, hcov, hcov, hcov, hcov, hcov, hcov, hcov, hcov]
    ring
  rw [compute_stats_L_matrix, npInv, if_pos hdet]
  rfl

/-- The pooled positions of a noiseless linear trajectory sampled at four
timestamps: `(i, 0, 0)` for `i = 0, 1, 2, 3`. -/
def data4 : Fin 4 → Fin 3 → ℚ :=
  fun i j => if j = 0 then ((i : ℕ) : ℚ) else 0

/-- Claim C4, witness: the concrete noiseless linear trajectory `data4`
triggers the singular-matrix failure path. -/
theorem stats_singular_covariance_witness :
    (2 ≤ 4 ∧ ∀ (i : Fin 4) (j : Fin 3),
      data4 i j = (fun _ : Fin 3 => (0 : ℚ)) j +
        (fun i' : Fin 4 => ((i' : ℕ) : ℚ)) i * (![1, 0, 0] : Fin 3 → ℚ) j) ∧
    compute_stats_L_matrix data4 =
      Except.error "LinAlgError: Singular matrix" := by
  have hcol : ∀ (i : Fin 4) (j : Fin 3),
      data4 i j = (fun _ : Fin 3 => (0 : ℚ)) j +
        (fun i' : Fin 4 => ((i' : ℕ) : ℚ)) i * (![1, 0, 0] : Fin 3 → ℚ) j := by
    intro i j
    fin_cases i <;> fin_cases j <;> norm_num [data4, Fin.ext_iff]
  refine ⟨⟨by omega, hcol⟩, ?_⟩
  exact stats_singular_covariance_errors data4 (fun _ => 0) ![1, 0, 0]
    (fun i' => ((i' : ℕ) : ℚ)) (by omega) hcol

/-- A 3-vector of the synthetic-trajectory generator. -/
structure V3 where
  x : ℚ
  y : ℚ
  z : ℚ
deriving DecidableEq

/-- `np.dot` of two 3-vectors. -/
def dot3 (a b : V3) : ℚ := a.x * b.x + a.y * b.y + a.z * b.z

/-- `np.cross` of two 3-vectors. -/
def cross3 (a b : V3) : V3 :=
  ⟨a.y * b.z - a.z * b.y, a.z * b.x - a.x * b.z, a.x * b.y - a.y * b.x⟩

/-- The skew-symmetric matrix `kmat` built from `v` in
`rotation_matrix_from_vectors` (generate_random_trajectories.py line 178). -/
def kmat (v : V3) : Matrix (Fin 3) (Fin 3) ℚ :=
  Matrix.of ![![0, -v.z, v.y], ![v.z, 0, -v.x], ![-v.y, v.x, 0]]

/-- `rotation_matrix_from_vectors` (generate_random_trajectories.py lines
173-180) on unit input vectors.  The source first rescales each argument by
its Euclidean norm (a square root, outside ℚ); every call site passes unit
vectors (`[0, 0, 1]` and a normalised normal), for which that rescaling is
the identity, so the embedding takes the normalised vectors directly.  The
only other appearance of a norm is `s ** 2 = ‖v‖²`, which equals `v · v`
exactly.  The division `(1 - c) / s**2` with `s = 0` (parallel vectors) is a
floating-point divide-by-zero: numpy emits an invalid-value warning and fills
the matrix with `inf`/`nan` instead of a rotation; modelled as an error. -/
def rotation_matrix_from_vectors (a b : V3) :
    Except String (Matrix (Fin 3) (Fin 3) ℚ) :=
  if dot3 (cross3 a b) (cross3 a b) = 0 then
    Except.error "floating point divide by zero: s equals 0"
  else
    Except.ok (1 + kmat (cross3 a b) +
      ((1 - dot3 a b) / dot3 (cross3 a b) (cross3 a b)) •
        (kmat (cross3 a b) * kmat (cross3 a b)))

/-- Claim C7: the code has no guard for (near-)parallel input vectors.  At
the explicit parallel pair `vec1 = vec2 = (0, 0, 1)` (unit vectors, so the
normalisation step is the identity) the cross product is the zero vector,
`s = 0`, and the construction divides by zero instead of returning a
well-defined rotation matrix. -/
theorem rotation_parallel_divzero :
    cross3 ⟨0, 0, 1⟩ ⟨0, 0, 1⟩ = ⟨0, 0, 0⟩ ∧
    rotation_matrix_from_vectors ⟨0, 0, 1⟩ ⟨0, 0, 1⟩ =
      Except.error "floating point divide by zero: s equals 0" := by
  constructor
  · norm_num [cross3]
  · rw [rotation_matrix_from_vectors, if_pos (by norm_num [dot3, cross3])]
